import Mathlib

/-!
# Executable lookup on Unix (`os/exec/lp_unix.go`)

A shallow embedding of `findExecutable`, `lookPaths`, `LookPath` and `LookPaths`.

* Go strings are byte strings; they are embedded as `List Char`.  The only bytes the
  code inspects are `/` and `:` (both ASCII), so the choice of character type is immaterial.
* The file system and the process environment are the two external collaborators.  They are
  an explicit `World`: the function behind `os.Stat` and the function behind `os.Getenv`.
* Every effectful function returns, next to its Go results, the list of `Event`s (calls to
  `os.Stat` and `os.Getenv`) it performed, in program order.
* A Go `error` result is an `Option`: `none` is `nil`.
-/

set_option autoImplicit false

namespace Exec

/-- A Go `string`. -/
abbrev GoString := List Char

/-! ## Package `os` -/

/-- The type `os.FileMode` (a `uint32`): permission bits in the low nine bits, type bits on top. -/
abbrev FileMode := Nat

/-- The constant `os.ModeDir`, `1 << 31`. -/
def ModeDir : FileMode := 2 ^ 31
/-- The constant `os.ModeSymlink`, `1 << 27`. -/
def ModeSymlink : FileMode := 2 ^ 27
/-- The constant `os.ModeDevice`, `1 << 26`. -/
def ModeDevice : FileMode := 2 ^ 26
/-- The constant `os.ModeNamedPipe`, `1 << 25`. -/
def ModeNamedPipe : FileMode := 2 ^ 25
/-- The constant `os.ModeSocket`, `1 << 24`. -/
def ModeSocket : FileMode := 2 ^ 24
/-- The constant `os.ModeType`, the mask of the type bits. -/
def ModeType : FileMode := ModeDir ||| ModeSymlink ||| ModeNamedPipe ||| ModeSocket ||| ModeDevice

/-- The method `FileMode.IsDir`: `m&ModeDir != 0`. -/
def FileMode.IsDir (m : FileMode) : Bool := (m &&& ModeDir) != 0

/-- The method `FileMode.IsRegular`: `m&ModeType == 0`. -/
def FileMode.IsRegular (m : FileMode) : Bool := (m &&& ModeType) == 0

/-- The part of `os.FileInfo` the code reads: the result of its `Mode()` method. -/
structure FileInfo where
  /-- The file mode bits. -/
  Mode : FileMode
  deriving DecidableEq, Repr

/-- The type `os.PathError`, the only kind of error `os.Stat` returns: operation, path and
the system error number. -/
structure PathError where
  /-- The failing operation. -/
  Op : GoString
  /-- The path it was applied to. -/
  Path : GoString
  /-- The `syscall.Errno` value. -/
  Err : Nat
  deriving DecidableEq, Repr

/-- The non-nil `error` values that occur as causes: the sentinel `exec.ErrNotFound`
(line 16), the sentinel `os.ErrPermission`, and a `*os.PathError` coming from `os.Stat`. -/
inductive GoError where
  | ErrNotFound
  | ErrPermission
  | pathError (e : PathError)
  deriving DecidableEq, Repr

/-- Modelled from the spec: the type `Error` of package `exec` is declared outside
`lp_unix.go`; it is the structured error carrying the originally requested name and the
underlying cause, built by the composite literal `&Error{file, err}`. -/
structure Error where
  /-- The requested file name. -/
  Name : GoString
  /-- The cause. -/
  Err : GoError
  deriving DecidableEq, Repr

/-- The external collaborators of one call: the file system as seen through `os.Stat`, and
the process environment as seen through `os.Getenv` (an unset variable reads as `""`). -/
structure World where
  /-- The result of `os.Stat` on a path. -/
  Stat : GoString → Except PathError FileInfo
  /-- The result of `os.Getenv` on a key. -/
  Getenv : GoString → GoString

/-- The world after `os.Setenv(key, val)`. -/
def World.Setenv (w : World) (key val : GoString) : World :=
  { w with Getenv := fun k => if k = key then val else w.Getenv k }

/-- An observable interaction with the outside. -/
inductive Event where
  | stat (file : GoString)
  | getenv (key : GoString)
  deriving DecidableEq, Repr

/-! ## Package `strings` -/

/-- The function `strings.Contains(s, substr)`: `substr` occurs within `s`. -/
def strings_Contains : GoString → GoString → Bool
  | [], substr => substr.isEmpty
  | c :: cs, substr => List.isPrefixOf substr (c :: cs) || strings_Contains cs substr

/-- The function `strings.Split(s, sep)` for a one-byte separator: the substrings of `s`
between the occurrences of `sep`; one more piece than there are separators, so that
`Split("", ":")` is `[""]`. -/
def strings_Split : GoString → Char → List GoString
  | [], _ => [[]]
  | c :: cs, sep =>
    if c = sep then [] :: strings_Split cs sep
    else
      match strings_Split cs sep with
      | [] => [[c]]
      | seg :: segs => (c :: seg) :: segs

/-- The function `strings.Join(a, sep)` for a one-byte separator. -/
def strings_Join : List GoString → Char → GoString
  | [], _ => []
  | [a], _ => a
  | a :: b :: rest, sep => a ++ sep :: strings_Join (b :: rest) sep

/-! ## `lp_unix.go` -/

/-- The name of the search-list variable, `"PATH"`. -/
def PATH : GoString := ['P', 'A', 'T', 'H']

/-- Lines 18-27, `findExecutable`: stat the file; a stat error is returned as is, a
non-directory with one of the bits `0111` is accepted, anything else is `os.ErrPermission`. -/
def findExecutable (w : World) (file : GoString) : Option GoError × List Event :=
  match w.Stat file with
  | .error err => (some (.pathError err), [.stat file])
  | .ok d =>
    let m := d.Mode
    if !m.IsDir && (m &&& 0o111) != 0 then (none, [.stat file])
    else (some .ErrPermission, [.stat file])

/-- The executability check as a Boolean test. -/
def isExecutable (w : World) (path : GoString) : Bool := (findExecutable w path).1.isNone

/-- Line 79 with lines 75-78: the candidate path built for one element of the search list. -/
def candidate (file dir : GoString) : GoString :=
  let dir := if dir = [] then ['.'] else dir
  dir ++ ['/'] ++ file

/-- Lines 74-86, the loop over `dir_slice`: `ret` is the slice accumulated so far; the
`break` of line 83 leaves the loop with the remaining directories unvisited. -/
def lookPaths_loop (w : World) (file : GoString) (stop_at_first : Bool) :
    List GoString → List GoString → List GoString × List Event
  | [], ret => (ret, [])
  | dir :: rest, ret =>
    let path := candidate file dir
    match findExecutable w path with
    | (none, ev) =>
      let ret := ret ++ [path]
      if stop_at_first then (ret, ev)
      else
        let (r, ev') := lookPaths_loop w file stop_at_first rest ret
        (r, ev ++ ev')
    | (some _, ev) =>
      let (r, ev') := lookPaths_loop w file stop_at_first rest ret
      (r, ev ++ ev')

/-- Lines 49-95, `lookPaths`. -/
def lookPaths (w : World) (file : GoString) (stop_at_first : Bool) :
    (List GoString × Option Error) × List Event :=
  if strings_Contains file ['/'] then
    match findExecutable w file with
    | (none, ev) => (([file], none), ev)
    | (some err, ev) => (([], some ⟨file, err⟩), ev)
  else
    let pathenv := w.Getenv PATH
    if pathenv = [] then (([], some ⟨file, .ErrNotFound⟩), [.getenv PATH])
    else
      let dir_slice := strings_Split pathenv ':'
      let (ret, ev) := lookPaths_loop w file stop_at_first dir_slice []
      let err : Option Error := if 0 = ret.length then some ⟨file, .ErrNotFound⟩ else none
      ((ret, err), .getenv PATH :: ev)

/-- Lines 33-39, `LookPath`. -/
def LookPath (w : World) (file : GoString) : (GoString × Option Error) × List Event :=
  match lookPaths w file true with
  | ((bin_sl, err), ev) =>
    match bin_sl with
    | [] => (([], err), ev)
    | p :: _ => ((p, none), ev)

/-- Lines 45-47, `LookPaths`. -/
def LookPaths (w : World) (file : GoString) : (List GoString × Option Error) × List Event :=
  lookPaths w file false

/-! ## Test fixtures -/

/-- A file system given by a finite table of paths and modes; every other path fails to
stat with `ENOENT` (errno 2). -/
def tableFS (tbl : List (GoString × FileMode)) (file : GoString) : Except PathError FileInfo :=
  match tbl.lookup file with
  | some m => .ok ⟨m⟩
  | none => .error ⟨['s', 't', 'a', 't'], file, 2⟩

/-- A world with the given table as file system and `PATH` set to `pathenv`; every other
variable is unset. -/
def mkWorld (tbl : List (GoString × FileMode)) (pathenv : GoString) : World :=
  { Stat := tableFS tbl, Getenv := fun k => if k = PATH then pathenv else [] }

/-- The name `ls`. -/
def ls : GoString := ['l', 's']

/-- The name `toolx`. -/
def toolx : GoString := "toolx".toList

/-- The name `runme`. -/
def runme : GoString := "runme".toList

/-- A small file system: `ls` is an executable file in `/usr/bin` and in `/bin`, a directory
in `/opt`, a file without execute bits in `/etc`; `toolx` is executable in `/opt/tools`. -/
def demoFS : List (GoString × FileMode) :=
  [("/usr/bin/ls".toList, 0o755), ("/bin/ls".toList, 0o755),
   ("/opt/ls".toList, ModeDir ||| 0o755), ("/etc/ls".toList, 0o644),
   ("/opt/tools/toolx".toList, 0o755), ("./runme".toList, 0o755),
   ("/usr/bin/../../bin//ls".toList, 0o755)]

/-- A file system with special files: a socket and a named pipe that carry execute bits, a
character device without them, and a directory. -/
def specialFS : List (GoString × FileMode) :=
  [("/run/app.sock".toList, ModeSocket ||| 0o755), ("/run/fifo".toList, ModeNamedPipe ||| 0o755),
   ("/dev/null".toList, ModeDevice ||| 0o666), ("/run".toList, ModeDir ||| 0o755)]

/-- The file system `demoFS` without `/bin/ls`, and with `ls` readable but not executable in
`/usr/local/bin`: it differs from `demoFS` only outside `/opt`, `/etc` and `/usr/bin`. -/
def demoFS2 : List (GoString × FileMode) :=
  [("/usr/bin/ls".toList, 0o755), ("/usr/local/bin/ls".toList, 0o644),
   ("/opt/ls".toList, ModeDir ||| 0o755), ("/etc/ls".toList, 0o644)]

/-! ## Basic facts about the helpers -/

theorem strings_Contains_singleton (s : GoString) (c : Char) :
    strings_Contains s [c] = true ↔ c ∈ s := by
  induction s with
  | nil => simp [strings_Contains]
  | cons a s ih =>
    simp only [strings_Contains, Bool.or_eq_true, ih, List.mem_cons]
    have : List.isPrefixOf [c] (a :: s) = true ↔ c = a := by
      simp [List.isPrefixOf]
    rw [this]

theorem strings_Contains_slash_false (s : GoString) (h : '/' ∉ s) :
    strings_Contains s ['/'] = false := by
  cases hc : strings_Contains s ['/'] with
  | false => rfl
  | true => exact absurd ((strings_Contains_singleton s '/').1 hc) h

theorem findExecutable_events (w : World) (file : GoString) :
    (findExecutable w file).2 = [Event.stat file] := by
  unfold findExecutable
  split
  · rfl
  · dsimp only
    split <;> rfl

theorem findExecutable_eq (w : World) (file : GoString) :
    findExecutable w file = ((findExecutable w file).1, [Event.stat file]) := by
  rw [← findExecutable_events w file]

theorem isExecutable_iff (w : World) (path : GoString) :
    isExecutable w path = true ↔ (findExecutable w path).1 = none := by
  simp [isExecutable, Option.isNone_iff_eq_none]

/-! ## The search loop -/

theorem lookPaths_loop_cons_pass (w : World) (file : GoString) (b : Bool) (dir : GoString)
    (rest ret : List GoString) (h : (findExecutable w (candidate file dir)).1 = none) :
    lookPaths_loop w file b (dir :: rest) ret =
      if b then (ret ++ [candidate file dir], [Event.stat (candidate file dir)])
      else ((lookPaths_loop w file b rest (ret ++ [candidate file dir])).1,
            Event.stat (candidate file dir) :: (lookPaths_loop w file b rest (ret ++ [candidate file dir])).2) := by
  rw [lookPaths_loop]
  dsimp only
  rw [findExecutable_eq, h]
  cases b <;> simp

theorem lookPaths_loop_cons_fail (w : World) (file : GoString) (b : Bool) (dir : GoString)
    (rest ret : List GoString) (h : (findExecutable w (candidate file dir)).1 ≠ none) :
    lookPaths_loop w file b (dir :: rest) ret =
      ((lookPaths_loop w file b rest ret).1,
        Event.stat (candidate file dir) :: (lookPaths_loop w file b rest ret).2) := by
  rw [lookPaths_loop]
  dsimp only
  rw [findExecutable_eq]
  cases hf : (findExecutable w (candidate file dir)).1 with
  | none => exact absurd hf h
  | some e => simp

/-- All-matches mode collects the passing candidates, in order. -/
theorem lookPaths_loop_all (w : World) (file : GoString) (dirs ret : List GoString) :
    lookPaths_loop w file false dirs ret =
      (ret ++ (dirs.map (candidate file)).filter (isExecutable w),
        dirs.map (fun d => Event.stat (candidate file d))) := by
  induction dirs generalizing ret with
  | nil => simp [lookPaths_loop]
  | cons d rest ih =>
    by_cases h : (findExecutable w (candidate file d)).1 = none
    · rw [lookPaths_loop_cons_pass w file false d rest ret h, ih]
      simp [(isExecutable_iff w _).2 h]
    · rw [lookPaths_loop_cons_fail w file false d rest ret h, ih]
      have : isExecutable w (candidate file d) = false := by
        cases hx : isExecutable w (candidate file d) with
        | false => rfl
        | true => exact absurd ((isExecutable_iff w _).1 hx) h
      simp [this]

/-- When no candidate passes, either mode visits every directory and adds nothing. -/
theorem lookPaths_loop_none (w : World) (file : GoString) (b : Bool) (dirs ret : List GoString)
    (h : ∀ d ∈ dirs, (findExecutable w (candidate file d)).1 ≠ none) :
    lookPaths_loop w file b dirs ret =
      (ret, dirs.map (fun d => Event.stat (candidate file d))) := by
  induction dirs with
  | nil => simp [lookPaths_loop]
  | cons d rest ih =>
    rw [lookPaths_loop_cons_fail w file b d rest ret (h d (List.mem_cons_self _ _)),
      ih (fun x hx => h x (List.mem_cons_of_mem _ hx))]
    simp

/-- First-match mode stops at the first passing candidate. -/
theorem lookPaths_loop_first (w : World) (file : GoString) (pre : List GoString) (d : GoString)
    (post ret : List GoString)
    (hpre : ∀ x ∈ pre, (findExecutable w (candidate file x)).1 ≠ none)
    (hd : (findExecutable w (candidate file d)).1 = none) :
    lookPaths_loop w file true (pre ++ d :: post) ret =
      (ret ++ [candidate file d],
        (pre ++ [d]).map (fun x => Event.stat (candidate file x))) := by
  induction pre with
  | nil => simp [lookPaths_loop_cons_pass w file true d post ret hd]
  | cons x pre ih =>
    rw [List.cons_append, lookPaths_loop_cons_fail w file true x _ ret
      (hpre x (List.mem_cons_self _ _)), ih (fun y hy => hpre y (List.mem_cons_of_mem _ hy))]
    simp

/-- The body of `lookPaths` on a name without a slash and a non-empty `PATH`. -/
theorem lookPaths_search (w : World) (file : GoString) (b : Bool)
    (hfile : '/' ∉ file) (hpath : w.Getenv PATH ≠ []) :
    lookPaths w file b =
      (((lookPaths_loop w file b (strings_Split (w.Getenv PATH) ':') []).1,
        if 0 = (lookPaths_loop w file b (strings_Split (w.Getenv PATH) ':') []).1.length
        then some ⟨file, GoError.ErrNotFound⟩ else none),
       Event.getenv PATH :: (lookPaths_loop w file b (strings_Split (w.Getenv PATH) ':') []).2) := by
  simp [lookPaths, strings_Contains_slash_false file hfile, hpath]

/-- The body of `lookPaths` on a name with a slash. -/
theorem lookPaths_direct (w : World) (file : GoString) (b : Bool) (hfile : '/' ∈ file) :
    lookPaths w file b =
      ((match (findExecutable w file).1 with
        | none => ([file], none)
        | some err => ([], some ⟨file, err⟩)), [Event.stat file]) := by
  unfold lookPaths
  rw [(strings_Contains_singleton file '/').2 hfile, findExecutable_eq]
  cases (findExecutable w file).1 <;> simp


/-- An element at index `k` splits the list into what precedes it and what follows it. -/
theorem split_at_index {α : Type} (l : List α) (k : Nat) (d : α) (h : l[k]? = some d) :
    ∃ pre post, l = pre ++ d :: post ∧ pre.length = k ∧
      ∀ x ∈ pre, ∃ j, j < k ∧ l[j]? = some x := by
  induction l generalizing k with
  | nil => simp at h
  | cons a l ih =>
    cases k with
    | zero =>
      simp at h
      exact ⟨[], l, by simp [h], rfl, by simp⟩
    | succ k =>
      simp at h
      obtain ⟨pre, post, hl, hlen, hmem⟩ := ih k h
      refine ⟨a :: pre, post, by simp [hl], by simp [hlen], ?_⟩
      intro x hx
      rcases List.mem_cons.1 hx with rfl | hx
      · exact ⟨0, Nat.succ_pos k, by simp⟩
      · obtain ⟨j, hj, hjx⟩ := hmem x hx
        exact ⟨j + 1, Nat.succ_lt_succ hj, by simpa using hjx⟩

/-- The result of `LookPath` in terms of the result of `lookPaths` in first-match mode. -/
theorem LookPath_eq (w : World) (file : GoString) :
    LookPath w file =
      ((match (lookPaths w file true).1.1 with
        | [] => ([], (lookPaths w file true).1.2)
        | p :: _ => (p, none)), (lookPaths w file true).2) := by
  unfold LookPath
  rcases hl : lookPaths w file true with ⟨⟨bin_sl, err⟩, ev⟩
  cases bin_sl <;> rfl

theorem LookPath_direct (w : World) (file : GoString) (hfile : '/' ∈ file) :
    LookPath w file =
      ((match (findExecutable w file).1 with
        | none => (file, none)
        | some err => ([], some ⟨file, err⟩)), [Event.stat file]) := by
  rw [LookPath_eq, lookPaths_direct w file true hfile]
  cases (findExecutable w file).1 <;> rfl

theorem filter_failing_nil (w : World) (file : GoString) (pre : List GoString)
    (hpre : ∀ x ∈ pre, (findExecutable w (candidate file x)).1 ≠ none) :
    (pre.map (candidate file)).filter (isExecutable w) = [] := by
  rw [List.filter_eq_nil_iff]
  intro p hp
  obtain ⟨x, hx, rfl⟩ := List.mem_map.1 hp
  intro h
  exact hpre x hx ((isExecutable_iff w _).1 h)

/-- Both lookups when the search list is `pre ++ d :: post`, every candidate of `pre` fails
and the candidate of `d` passes. -/
theorem lookup_first_pass (w : World) (file : GoString) (hfile : '/' ∉ file)
    (hpath : w.Getenv PATH ≠ []) (pre : List GoString) (d : GoString) (post : List GoString)
    (hsplit : strings_Split (w.Getenv PATH) ':' = pre ++ d :: post)
    (hpre : ∀ x ∈ pre, (findExecutable w (candidate file x)).1 ≠ none)
    (hd : (findExecutable w (candidate file d)).1 = none) :
    (LookPath w file).1 = (candidate file d, none) ∧
    (LookPaths w file).1 =
      (candidate file d :: (post.map (candidate file)).filter (isExecutable w), none) := by
  constructor
  · rw [LookPath_eq, lookPaths_search w file true hfile hpath, hsplit,
      lookPaths_loop_first w file pre d post [] hpre hd]
    rfl
  · rw [LookPaths, lookPaths_search w file false hfile hpath, hsplit, lookPaths_loop_all]
    simp [filter_failing_nil w file pre hpre, (isExecutable_iff w _).2 hd]

/-! ## Splitting and joining -/

theorem strings_Split_ne_nil (s : GoString) (c : Char) : strings_Split s c ≠ [] := by
  induction s with
  | nil => simp [strings_Split]
  | cons a s ih =>
    rw [strings_Split]
    split
    · simp
    · split <;> simp

theorem strings_Split_cons_ne (a : Char) (s : GoString) (c : Char) (h : a ≠ c) :
    strings_Split (a :: s) c =
      (a :: (strings_Split s c).headD []) :: (strings_Split s c).tail := by
  rw [strings_Split, if_neg h]
  cases hs : strings_Split s c with
  | nil => exact absurd hs (strings_Split_ne_nil s c)
  | cons seg segs => rfl

/-- No segment of a split contains the separator. -/
theorem strings_Split_no_sep (s : GoString) (c : Char) :
    ∀ seg ∈ strings_Split s c, c ∉ seg := by
  induction s with
  | nil => simp [strings_Split]
  | cons a s ih =>
    by_cases h : a = c
    · rw [strings_Split, if_pos h]
      intro seg hseg
      rcases List.mem_cons.1 hseg with rfl | hseg
      · simp
      · exact ih seg hseg
    · rw [strings_Split_cons_ne a s c h]
      cases hs : strings_Split s c with
      | nil => exact absurd hs (strings_Split_ne_nil s c)
      | cons seg segs =>
        rw [hs] at ih
        intro x hx
        simp only [List.headD_cons, List.tail_cons, List.mem_cons] at hx
        rcases hx with rfl | hx
        · intro hc
          rcases List.mem_cons.1 hc with rfl | hc
          · exact h rfl
          · exact ih seg (List.mem_cons_self _ _) hc
        · exact ih x (List.mem_cons_of_mem _ hx)

theorem strings_Split_of_not_mem (a : GoString) (c : Char) (h : c ∉ a) :
    strings_Split a c = [a] := by
  induction a with
  | nil => rfl
  | cons x a ih =>
    have hx : x ≠ c := fun hxc => h (hxc ▸ List.mem_cons_self _ _)
    rw [strings_Split_cons_ne x a c hx, ih (fun hc => h (List.mem_cons_of_mem _ hc))]
    rfl

theorem strings_Split_append_sep (a t : GoString) (c : Char) (h : c ∉ a) :
    strings_Split (a ++ c :: t) c = a :: strings_Split t c := by
  induction a with
  | nil => simp [strings_Split]
  | cons x a ih =>
    have hx : x ≠ c := fun hxc => h (hxc ▸ List.mem_cons_self _ _)
    rw [List.cons_append, strings_Split_cons_ne x _ c hx,
      ih (fun hc => h (List.mem_cons_of_mem _ hc))]
    rfl

/-- Splitting undoes joining, for a non-empty list of segments free of the separator. -/
theorem strings_Split_Join (segs : List GoString) (c : Char) (hne : segs ≠ [])
    (h : ∀ seg ∈ segs, c ∉ seg) : strings_Split (strings_Join segs c) c = segs := by
  induction segs with
  | nil => exact absurd rfl hne
  | cons a rest ih =>
    cases rest with
    | nil => exact strings_Split_of_not_mem a c (h a (List.mem_cons_self _ _))
    | cons b rest =>
      rw [strings_Join, strings_Split_append_sep a _ c (h a (List.mem_cons_self _ _)),
        ih (by simp) (fun seg hseg => h seg (List.mem_cons_of_mem _ hseg))]

/-- Replacing an empty entry of the search list by `.` does not change the candidates. -/
theorem map_candidate_set_dot (file : GoString) (l : List GoString) (i : Nat)
    (hi : l[i]? = some []) :
    (l.set i ['.']).map (candidate file) = l.map (candidate file) := by
  induction l generalizing i with
  | nil => rfl
  | cons a l ih =>
    cases i with
    | zero =>
      simp at hi
      subst hi
      simp [candidate]
    | succ i =>
      simp at hi
      simp [ih i hi]

/-- The loop sees the search list only through the candidates built from it. -/
theorem lookPaths_loop_congr (w : World) (file : GoString) (b : Bool)
    (dirs dirs' ret : List GoString)
    (h : dirs.map (candidate file) = dirs'.map (candidate file)) :
    lookPaths_loop w file b dirs ret = lookPaths_loop w file b dirs' ret := by
  induction dirs generalizing dirs' ret with
  | nil =>
    cases dirs' with
    | nil => rfl
    | cons d' rest' => simp at h
  | cons d rest ih =>
    cases dirs' with
    | nil => simp at h
    | cons d' rest' =>
      simp only [List.map_cons, List.cons.injEq] at h
      obtain ⟨hd, hrest⟩ := h
      rw [lookPaths_loop, lookPaths_loop]
      simp only [hd]
      rw [findExecutable_eq]
      cases (findExecutable w (candidate file d')).1 with
      | none =>
        cases b
        · simp [ih rest' _ hrest]
        · simp
      | some e => simp [ih rest' _ hrest]

theorem Setenv_Getenv (w : World) (p : GoString) : (w.Setenv PATH p).Getenv PATH = p := by
  simp [World.Setenv]

/-- Replacing an empty segment of a non-empty `PATH` by `.` leaves `lookPaths` unchanged. -/
theorem lookPaths_set_dot (w : World) (file : GoString) (b : Bool) (p : GoString) (i : Nat)
    (hfile : '/' ∉ file) (hp : p ≠ []) (hi : (strings_Split p ':')[i]? = some []) :
    lookPaths (w.Setenv PATH (strings_Join ((strings_Split p ':').set i ['.']) ':')) file b =
      lookPaths (w.Setenv PATH p) file b := by
  have hsplit : strings_Split (strings_Join ((strings_Split p ':').set i ['.']) ':') ':' =
      (strings_Split p ':').set i ['.'] := by
    apply strings_Split_Join
    · intro h
      exact strings_Split_ne_nil p ':' (by simpa using h)
    · intro seg hseg
      rcases List.mem_or_eq_of_mem_set hseg with hseg | rfl
      · exact strings_Split_no_sep p ':' seg hseg
      · decide
  have hne : strings_Join ((strings_Split p ':').set i ['.']) ':' ≠ [] := by
    intro h
    rw [h] at hsplit
    have hlt : i < (strings_Split p ':').length := by
      by_contra hge
      rw [List.getElem?_eq_none (Nat.le_of_not_lt hge)] at hi
      cases hi
    have h1 : ((strings_Split p ':').set i ['.'])[i]? = some ['.'] := by
      simp [List.getElem?_set, hlt]
    rw [← hsplit] at h1
    cases i with
    | zero => simp [strings_Split] at h1
    | succ i => simp [strings_Split] at h1
  have hstat : ∀ q, findExecutable (w.Setenv PATH q) = findExecutable w := by
    intro q
    funext f
    rfl
  have hloop : ∀ q l r, lookPaths_loop (w.Setenv PATH q) file b l r =
      lookPaths_loop w file b l r := by
    intro q l r
    induction l generalizing r with
    | nil => rfl
    | cons d rest ih =>
      rw [lookPaths_loop, lookPaths_loop, hstat]
      simp only [ih]
  rw [lookPaths_search _ file b hfile (by rw [Setenv_Getenv]; exact hne),
    lookPaths_search _ file b hfile (by rw [Setenv_Getenv]; exact hp)]
  simp only [Setenv_Getenv, hsplit, hloop]
  rw [lookPaths_loop_congr w file b _ _ [] (map_candidate_set_dot file _ i hi)]

/-! ## The two modes side by side -/

/-- First-match mode adds the first passing candidate, if there is one. -/
theorem lookPaths_loop_first_take (w : World) (file : GoString) (dirs ret : List GoString) :
    (lookPaths_loop w file true dirs ret).1 =
      ret ++ ((dirs.map (candidate file)).filter (isExecutable w)).take 1 := by
  induction dirs with
  | nil => simp [lookPaths_loop]
  | cons d rest ih =>
    by_cases h : (findExecutable w (candidate file d)).1 = none
    · rw [lookPaths_loop_cons_pass w file true d rest ret h]
      simp [(isExecutable_iff w _).2 h]
    · rw [lookPaths_loop_cons_fail w file true d rest ret h]
      have hx : isExecutable w (candidate file d) = false := by
        cases hx : isExecutable w (candidate file d) with
        | false => rfl
        | true => exact absurd ((isExecutable_iff w _).1 hx) h
      simp [ih, hx]

/-- The results of `LookPath` on a name without a slash and a non-empty `PATH`. -/
theorem LookPath_search (w : World) (file : GoString)
    (hfile : '/' ∉ file) (hpath : w.Getenv PATH ≠ []) :
    (LookPath w file).1 =
      (match ((strings_Split (w.Getenv PATH) ':').map (candidate file)).filter
          (isExecutable w) with
        | [] => ([], some ⟨file, GoError.ErrNotFound⟩)
        | p :: _ => (p, none)) := by
  rw [LookPath_eq, lookPaths_search w file true hfile hpath, lookPaths_loop_first_take]
  cases ((strings_Split (w.Getenv PATH) ':').map (candidate file)).filter (isExecutable w) with
  | nil => rfl
  | cons p t => rfl

/-- The results of `LookPaths` on a name without a slash and a non-empty `PATH`. -/
theorem LookPaths_search (w : World) (file : GoString)
    (hfile : '/' ∉ file) (hpath : w.Getenv PATH ≠ []) :
    (LookPaths w file).1 =
      (match ((strings_Split (w.Getenv PATH) ':').map (candidate file)).filter
          (isExecutable w) with
        | [] => ([], some ⟨file, GoError.ErrNotFound⟩)
        | p :: t => (p :: t, none)) := by
  rw [LookPaths, lookPaths_search w file false hfile hpath, lookPaths_loop_all]
  cases ((strings_Split (w.Getenv PATH) ':').map (candidate file)).filter (isExecutable w) with
  | nil => rfl
  | cons p t => rfl

/-- Below a passing entry of the search list there is a first passing entry. -/
theorem exists_first_pass (w : World) (file : GoString) (dirs : List GoString) (j : Nat) :
    ∀ d', dirs[j]? = some d' → (findExecutable w (candidate file d')).1 = none →
    ∃ m x, m ≤ j ∧ dirs[m]? = some x ∧ (findExecutable w (candidate file x)).1 = none ∧
      ∀ n y, n < m → dirs[n]? = some y → (findExecutable w (candidate file y)).1 ≠ none := by
  induction j using Nat.strong_induction_on with
  | _ j ih =>
    intro d' hj hpass
    by_cases hall : ∀ n y, n < j → dirs[n]? = some y →
        (findExecutable w (candidate file y)).1 ≠ none
    · exact ⟨j, d', Nat.le_refl j, hj, hpass, hall⟩
    · simp only [not_forall, not_not] at hall
      obtain ⟨n, y, hn, hy, hyp⟩ := hall
      obtain ⟨m, x, hm, hx, hxp, hmin⟩ := ih n hn y hy hyp
      exact ⟨m, x, Nat.le_trans hm (Nat.le_of_lt hn), hx, hxp, hmin⟩

/-! ## Facts shared by both entry points -/

/-- The body of `lookPaths` on a name without a slash when `PATH` is empty. -/
theorem lookPaths_empty (w : World) (file : GoString) (b : Bool)
    (hfile : '/' ∉ file) (hpath : w.Getenv PATH = []) :
    lookPaths w file b = (([], some ⟨file, GoError.ErrNotFound⟩), [Event.getenv PATH]) := by
  simp [lookPaths, strings_Contains_slash_false file hfile, hpath]

/-- First-match mode returns the one-element beginning of what all-matches mode returns,
with the same error. -/
theorem lookPaths_take (w : World) (file : GoString) :
    (lookPaths w file true).1 =
      ((lookPaths w file false).1.1.take 1, (lookPaths w file false).1.2) := by
  by_cases hfile : '/' ∈ file
  · rw [lookPaths_direct w file true hfile, lookPaths_direct w file false hfile]
    cases (findExecutable w file).1 <;> rfl
  · by_cases hpath : w.Getenv PATH = []
    · rw [lookPaths_empty w file true hfile hpath, lookPaths_empty w file false hfile hpath]
      rfl
    · rw [lookPaths_search w file true hfile hpath, lookPaths_search w file false hfile hpath,
        lookPaths_loop_first_take, lookPaths_loop_all]
      cases ((strings_Split (w.Getenv PATH) ':').map (candidate file)).filter
        (isExecutable w) <;> rfl

/-- In either mode the error is nil exactly when the returned list is not empty. -/
theorem lookPaths_err_iff (w : World) (file : GoString) (b : Bool) :
    (lookPaths w file b).1.2 = none ↔ (lookPaths w file b).1.1 ≠ [] := by
  by_cases hfile : '/' ∈ file
  · rw [lookPaths_direct w file b hfile]
    cases (findExecutable w file).1 <;> simp
  · by_cases hpath : w.Getenv PATH = []
    · rw [lookPaths_empty w file b hfile hpath]
      simp
    · rw [lookPaths_search w file b hfile hpath]
      cases (lookPaths_loop w file b (strings_Split (w.Getenv PATH) ':') []).1 <;> simp

theorem candidate_has_slash (file dir : GoString) : '/' ∈ candidate file dir := by
  simp [candidate]

/-- Every returned path contains a slash and passes the executability check. -/
theorem lookPaths_mem (w : World) (file : GoString) (b : Bool) (p : GoString)
    (hp : p ∈ (lookPaths w file b).1.1) : '/' ∈ p ∧ (findExecutable w p).1 = none := by
  have hall : ∀ q, q ∈ (lookPaths w file false).1.1 →
      '/' ∈ q ∧ (findExecutable w q).1 = none := by
    intro q hq
    by_cases hfile : '/' ∈ file
    · rw [lookPaths_direct w file false hfile] at hq
      cases hfe : (findExecutable w file).1 with
      | none =>
        rw [hfe] at hq
        simp only [List.mem_singleton] at hq
        subst hq
        exact ⟨hfile, hfe⟩
      | some e =>
        rw [hfe] at hq
        simp at hq
    · by_cases hpath : w.Getenv PATH = []
      · rw [lookPaths_empty w file false hfile hpath] at hq
        simp at hq
      · rw [lookPaths_search w file false hfile hpath, lookPaths_loop_all] at hq
        simp only [List.nil_append, List.mem_filter, List.mem_map] at hq
        obtain ⟨⟨d, _, rfl⟩, hq⟩ := hq
        exact ⟨candidate_has_slash file d, (isExecutable_iff w _).1 hq⟩
  cases b with
  | false => exact hall p hp
  | true =>
    rw [lookPaths_take] at hp
    exact hall p (List.mem_of_mem_take hp)

/-- The result of `findExecutable` depends on the file system through `os.Stat` of the
probed path only. -/
theorem findExecutable_congr (w w' : World) (file : GoString)
    (h : w'.Stat file = w.Stat file) : findExecutable w' file = findExecutable w file := by
  simp [findExecutable, h]

/-! ## The claims -/

/-- C1: for a name without a slash and a non-empty `PATH`, `LookPaths` returns exactly the
list obtained by splitting `PATH` on `:`, mapping each segment `d` to the candidate
(`.` if `d` is empty, else `d`) followed by `/` and the name, and keeping the candidates on
which `findExecutable` returns nil, in search-list order and with multiplicity. -/
theorem LookPaths_eq_filter_candidates (w : World) (file : GoString)
    (hfile : '/' ∉ file) (hpath : w.Getenv PATH ≠ []) :
    (LookPaths w file).1.1 =
      ((strings_Split (w.Getenv PATH) ':').map
        (fun d => (if d = [] then ['.'] else d) ++ ['/'] ++ file)).filter
        (fun p => decide ((findExecutable w p).1 = none)) := by
  rw [LookPaths, lookPaths_search w file false hfile hpath, lookPaths_loop_all]
  simp only [List.nil_append]
  congr 1
  funext p
  cases h : (findExecutable w p).1 <;> simp [isExecutable, h]

theorem LookPaths_eq_filter_candidates_witness :
    '/' ∉ ls ∧ (mkWorld demoFS "/opt:/bin::/etc:/usr/bin:/bin".toList).Getenv PATH ≠ [] ∧
    (LookPaths (mkWorld demoFS "/opt:/bin::/etc:/usr/bin:/bin".toList) ls).1.1 =
      ["/bin/ls".toList, "/usr/bin/ls".toList, "/bin/ls".toList] :=
  ⟨by decide, by decide,
    (LookPaths_eq_filter_candidates (mkWorld demoFS "/opt:/bin::/etc:/usr/bin:/bin".toList) ls
      (by decide) (by decide)).trans (by decide)⟩

/-- C2: for a name without a slash and a search list whose entry at index `k` (the
`k+1`-th entry) is the first whose candidate passes the executability check, `LookPath`
returns exactly that candidate with a nil error, and `LookPaths` returns a non-empty list
whose first element is that candidate, with a nil error. -/
theorem lookup_first_match (w : World) (file : GoString)
    (hfile : '/' ∉ file) (hpath : w.Getenv PATH ≠ []) (k : Nat) (d : GoString)
    (hk : (strings_Split (w.Getenv PATH) ':')[k]? = some d)
    (hpass : (findExecutable w (candidate file d)).1 = none)
    (hfirst : ∀ j d', j < k → (strings_Split (w.Getenv PATH) ':')[j]? = some d' →
      (findExecutable w (candidate file d')).1 ≠ none) :
    (LookPath w file).1 = (candidate file d, none) ∧
    ∃ rest, (LookPaths w file).1 = (candidate file d :: rest, none) := by
  obtain ⟨pre, post, hsplit, _, hmem⟩ := split_at_index _ k d hk
  have hpre : ∀ x ∈ pre, (findExecutable w (candidate file x)).1 ≠ none := by
    intro x hx
    obtain ⟨j, hj, hjx⟩ := hmem x hx
    exact hfirst j x hj hjx
  obtain ⟨h1, h2⟩ := lookup_first_pass w file hfile hpath pre d post hsplit hpre hpass
  exact ⟨h1, _, h2⟩

theorem lookup_first_match_witness :
    (LookPath (mkWorld demoFS "/opt:/etc:/usr/bin:/bin".toList) ls).1 =
      ("/usr/bin/ls".toList, none) ∧
    ∃ rest, (LookPaths (mkWorld demoFS "/opt:/etc:/usr/bin:/bin".toList) ls).1 =
      ("/usr/bin/ls".toList :: rest, none) :=
  lookup_first_match (mkWorld demoFS "/opt:/etc:/usr/bin:/bin".toList) ls
    (by decide) (by decide) 2 "/usr/bin".toList (by decide) (by decide)
    (by
      intro j d' hj hd'
      have hj' : j = 0 ∨ j = 1 := by omega
      rcases hj' with rfl | rfl
      · have : d' = "/opt".toList := by
          have h0 : (strings_Split ((mkWorld demoFS "/opt:/etc:/usr/bin:/bin".toList).Getenv PATH)
            ':')[0]? = some "/opt".toList := by decide
          exact Option.some.inj (hd'.symm.trans h0)
        subst this
        decide
      · have : d' = "/etc".toList := by
          have h1 : (strings_Split ((mkWorld demoFS "/opt:/etc:/usr/bin:/bin".toList).Getenv PATH)
            ':')[1]? = some "/etc".toList := by decide
          exact Option.some.inj (hd'.symm.trans h1)
        subst this
        decide)

/-- C3: for a name containing a slash, `PATH` is never consulted: two worlds with the same
file system and arbitrary environments give the same output of `LookPath` and of `LookPaths`
(results, errors and performed calls); the only call performed is one `os.Stat` on the name
itself, no `os.Getenv`; and the outcome is the one dictated by `findExecutable` on the name. -/
theorem lookup_direct_ignores_PATH (w w' : World) (file : GoString)
    (hfile : '/' ∈ file) (hfs : w'.Stat = w.Stat) :
    LookPath w' file = LookPath w file ∧ LookPaths w' file = LookPaths w file ∧
    (LookPath w file).2 = [Event.stat file] ∧ (LookPaths w file).2 = [Event.stat file] ∧
    (LookPath w file).1 =
      (match (findExecutable w file).1 with
        | none => (file, none)
        | some err => ([], some ⟨file, err⟩)) ∧
    (LookPaths w file).1 =
      (match (findExecutable w file).1 with
        | none => ([file], none)
        | some err => ([], some ⟨file, err⟩)) := by
  have hfe : findExecutable w' file = findExecutable w file := by
    simp [findExecutable, hfs]
  refine ⟨?_, ?_, ?_, ?_, ?_, ?_⟩
  · rw [LookPath_direct w' file hfile, LookPath_direct w file hfile, hfe]
  · rw [LookPaths, LookPaths, lookPaths_direct w' file false hfile,
      lookPaths_direct w file false hfile, hfe]
  · rw [LookPath_direct w file hfile]
  · rw [LookPaths, lookPaths_direct w file false hfile]
  · rw [LookPath_direct w file hfile]
  · rw [LookPaths, lookPaths_direct w file false hfile]

theorem lookup_direct_ignores_PATH_witness :
    LookPath (mkWorld demoFS "::garbage".toList) "/bin/ls".toList =
      LookPath (mkWorld demoFS []) "/bin/ls".toList ∧
    LookPaths (mkWorld demoFS "::garbage".toList) "/bin/ls".toList =
      LookPaths (mkWorld demoFS []) "/bin/ls".toList ∧
    (LookPath (mkWorld demoFS []) "/bin/ls".toList).2 = [Event.stat "/bin/ls".toList] ∧
    (LookPaths (mkWorld demoFS []) "/bin/ls".toList).2 = [Event.stat "/bin/ls".toList] ∧
    (LookPath (mkWorld demoFS []) "/bin/ls".toList).1 = ("/bin/ls".toList, none) ∧
    (LookPaths (mkWorld demoFS []) "/bin/ls".toList).1 = (["/bin/ls".toList], none) :=
  lookup_direct_ignores_PATH (mkWorld demoFS []) (mkWorld demoFS "::garbage".toList)
    "/bin/ls".toList (by decide) rfl

/-- C4: for a name containing a slash on which `findExecutable` returns nil, `LookPaths`
returns the one-element list holding the name itself, unchanged, with a nil error, and
`LookPath` returns the name itself, unchanged, with a nil error. -/
theorem lookup_direct_success (w : World) (file : GoString)
    (hfile : '/' ∈ file) (hok : (findExecutable w file).1 = none) :
    (LookPaths w file).1 = ([file], none) ∧ (LookPath w file).1 = (file, none) := by
  rw [LookPaths, lookPaths_direct w file false hfile, LookPath_direct w file hfile, hok]
  exact ⟨rfl, rfl⟩

theorem lookup_direct_success_witness :
    (LookPaths (mkWorld demoFS []) "/usr/bin/../../bin//ls".toList).1 =
      (["/usr/bin/../../bin//ls".toList], none) ∧
    (LookPath (mkWorld demoFS []) "/usr/bin/../../bin//ls".toList).1 =
      ("/usr/bin/../../bin//ls".toList, none) :=
  lookup_direct_success (mkWorld demoFS []) "/usr/bin/../../bin//ls".toList
    (by decide) (by decide)

/-- C5: for a name containing a slash on which `findExecutable` fails with cause `e`,
`LookPaths` returns the empty list with the error `Error{name, e}` and `LookPath` returns the
empty string with the same error; `e` is the stat failure when `os.Stat` fails, and
`os.ErrPermission` when the path exists but is a directory or has none of the execute bits;
the two causes are never equal. -/
theorem lookup_direct_failure (w : World) (file : GoString) (e : GoError)
    (hfile : '/' ∈ file) (hfail : (findExecutable w file).1 = some e) :
    (LookPaths w file).1 = ([], some ⟨file, e⟩) ∧
    (LookPath w file).1 = ([], some ⟨file, e⟩) ∧
    (∀ pe, w.Stat file = .error pe → e = GoError.pathError pe) ∧
    (∀ fi, w.Stat file = .ok fi →
      e = GoError.ErrPermission ∧ (fi.Mode.IsDir = true ∨ fi.Mode &&& 0o111 = 0)) ∧
    (∀ pe, GoError.pathError pe ≠ GoError.ErrPermission) := by
  refine ⟨?_, ?_, ?_, ?_, ?_⟩
  · rw [LookPaths, lookPaths_direct w file false hfile, hfail]
  · rw [LookPath_direct w file hfile, hfail]
  · intro pe hpe
    simp [findExecutable, hpe] at hfail
    exact hfail.symm
  · intro fi hfi
    simp only [findExecutable, hfi] at hfail
    split at hfail
    · simp at hfail
    · rename_i hc
      simp at hfail
      refine ⟨hfail.symm, ?_⟩
      by_cases hd : fi.Mode.IsDir = true
      · exact Or.inl hd
      · right
        simpa [hd] using hc
  · intro pe h
    cases h

theorem lookup_direct_failure_witness :
    ((LookPaths (mkWorld demoFS "/bin".toList) "/opt/ls".toList).1 =
        ([], some ⟨"/opt/ls".toList, GoError.ErrPermission⟩) ∧
      (LookPath (mkWorld demoFS "/bin".toList) "/opt/ls".toList).1 =
        ([], some ⟨"/opt/ls".toList, GoError.ErrPermission⟩)) ∧
    ((LookPaths (mkWorld demoFS "/bin".toList) "/nowhere/ls".toList).1 =
        ([], some ⟨"/nowhere/ls".toList,
          GoError.pathError ⟨"stat".toList, "/nowhere/ls".toList, 2⟩⟩) ∧
      (LookPath (mkWorld demoFS "/bin".toList) "/nowhere/ls".toList).1 =
        ([], some ⟨"/nowhere/ls".toList,
          GoError.pathError ⟨"stat".toList, "/nowhere/ls".toList, 2⟩⟩)) :=
  ⟨⟨(lookup_direct_failure (mkWorld demoFS "/bin".toList) "/opt/ls".toList
        GoError.ErrPermission (by decide) (by decide)).1,
      (lookup_direct_failure (mkWorld demoFS "/bin".toList) "/opt/ls".toList
        GoError.ErrPermission (by decide) (by decide)).2.1⟩,
    ⟨(lookup_direct_failure (mkWorld demoFS "/bin".toList) "/nowhere/ls".toList
        (GoError.pathError ⟨"stat".toList, "/nowhere/ls".toList, 2⟩) (by decide) (by decide)).1,
      (lookup_direct_failure (mkWorld demoFS "/bin".toList) "/nowhere/ls".toList
        (GoError.pathError ⟨"stat".toList, "/nowhere/ls".toList, 2⟩) (by decide)
        (by decide)).2.1⟩⟩

/-- C6: `findExecutable` has exactly three outcomes: when `os.Stat` fails it returns that
failure unchanged; when `os.Stat` succeeds with a mode that is not a directory and has one
of the bits `0111` it returns nil; in every other case where `os.Stat` succeeds (a
directory, or none of the three execute bits) it returns `os.ErrPermission`. -/
theorem findExecutable_outcomes (w : World) (file : GoString) :
    (∀ pe, w.Stat file = .error pe →
      (findExecutable w file).1 = some (GoError.pathError pe)) ∧
    (∀ fi, w.Stat file = .ok fi → fi.Mode.IsDir = false → fi.Mode &&& 0o111 ≠ 0 →
      (findExecutable w file).1 = none) ∧
    (∀ fi, w.Stat file = .ok fi → (fi.Mode.IsDir = true ∨ fi.Mode &&& 0o111 = 0) →
      (findExecutable w file).1 = some GoError.ErrPermission) ∧
    ((∃ pe, w.Stat file = .error pe) ∨
      (∃ fi, w.Stat file = .ok fi ∧ fi.Mode.IsDir = false ∧ fi.Mode &&& 0o111 ≠ 0) ∨
      (∃ fi, w.Stat file = .ok fi ∧ (fi.Mode.IsDir = true ∨ fi.Mode &&& 0o111 = 0))) := by
  refine ⟨?_, ?_, ?_, ?_⟩
  · intro pe hpe
    simp [findExecutable, hpe]
  · intro fi hfi hd hx
    simp [findExecutable, hfi, hd, hx]
  · intro fi hfi h
    rcases h with hd | hx
    · simp [findExecutable, hfi, hd]
    · simp [findExecutable, hfi, hx]
  · cases hs : w.Stat file with
    | error pe => exact Or.inl ⟨pe, rfl⟩
    | ok fi =>
      right
      by_cases hd : fi.Mode.IsDir = true
      · exact Or.inr ⟨fi, rfl, Or.inl hd⟩
      · by_cases hx : fi.Mode &&& 0o111 = 0
        · exact Or.inr ⟨fi, rfl, Or.inr hx⟩
        · exact Or.inl ⟨fi, rfl, by simpa using hd, hx⟩

theorem findExecutable_outcomes_witness :
    (findExecutable (mkWorld demoFS []) "/nowhere/ls".toList).1 =
      some (GoError.pathError ⟨"stat".toList, "/nowhere/ls".toList, 2⟩) ∧
    (findExecutable (mkWorld demoFS []) "/bin/ls".toList).1 = none ∧
    (findExecutable (mkWorld demoFS []) "/opt/ls".toList).1 = some GoError.ErrPermission ∧
    (findExecutable (mkWorld demoFS []) "/etc/ls".toList).1 = some GoError.ErrPermission :=
  ⟨(findExecutable_outcomes (mkWorld demoFS []) "/nowhere/ls".toList).1 _ rfl,
   (findExecutable_outcomes (mkWorld demoFS []) "/bin/ls".toList).2.1 ⟨0o755⟩ rfl
      (by decide) (by decide),
   (findExecutable_outcomes (mkWorld demoFS []) "/opt/ls".toList).2.2.1 ⟨ModeDir ||| 0o755⟩ rfl
      (Or.inl (by decide)),
   (findExecutable_outcomes (mkWorld demoFS []) "/etc/ls".toList).2.2.1 ⟨0o644⟩ rfl
      (Or.inr (by decide))⟩

/-- C7: for a name without a slash, when `PATH` is empty or unset, whatever the file system
holds, `LookPath` returns the empty string and `LookPaths` the empty list, both with the
error `Error{name, ErrNotFound}`, and the only call performed is the `os.Getenv`: no
candidate is probed. -/
theorem lookup_empty_PATH (w : World) (file : GoString)
    (hfile : '/' ∉ file) (hpath : w.Getenv PATH = []) :
    LookPath w file = (([], some ⟨file, GoError.ErrNotFound⟩), [Event.getenv PATH]) ∧
    LookPaths w file = (([], some ⟨file, GoError.ErrNotFound⟩), [Event.getenv PATH]) := by
  have h : ∀ b, lookPaths w file b =
      (([], some ⟨file, GoError.ErrNotFound⟩), [Event.getenv PATH]) := by
    intro b
    simp [lookPaths, strings_Contains_slash_false file hfile, hpath]
  constructor
  · rw [LookPath_eq, h true]
  · rw [LookPaths, h false]

theorem lookup_empty_PATH_witness :
    (findExecutable (mkWorld demoFS []) ("./".toList ++ runme)).1 = none ∧
    LookPath (mkWorld demoFS []) runme =
      (([], some ⟨runme, GoError.ErrNotFound⟩), [Event.getenv PATH]) ∧
    LookPaths (mkWorld demoFS []) runme =
      (([], some ⟨runme, GoError.ErrNotFound⟩), [Event.getenv PATH]) :=
  ⟨by decide, lookup_empty_PATH (mkWorld demoFS []) runme (by decide) (by decide)⟩

/-- C8: for a name without a slash and a non-empty `PATH`, when no candidate of the search
list passes the executability check (for whatever reason each one fails), `LookPath` returns
the empty string and `LookPaths` the empty list, both with the error
`Error{name, ErrNotFound}` naming the requested name. -/
theorem lookup_no_match (w : World) (file : GoString)
    (hfile : '/' ∉ file) (hpath : w.Getenv PATH ≠ [])
    (hnone : ∀ d ∈ strings_Split (w.Getenv PATH) ':',
      (findExecutable w (candidate file d)).1 ≠ none) :
    (LookPath w file).1 = ([], some ⟨file, GoError.ErrNotFound⟩) ∧
    (LookPaths w file).1 = ([], some ⟨file, GoError.ErrNotFound⟩) := by
  constructor
  · rw [LookPath_eq, lookPaths_search w file true hfile hpath,
      lookPaths_loop_none w file true _ [] hnone]
    rfl
  · rw [LookPaths, lookPaths_search w file false hfile hpath,
      lookPaths_loop_none w file false _ [] hnone]
    rfl

theorem lookup_no_match_witness :
    (findExecutable (mkWorld demoFS "/usr/bin:/bin".toList) "/opt/tools/toolx".toList).1 = none ∧
    (LookPath (mkWorld demoFS "/usr/bin:/bin".toList) toolx).1 =
      ([], some ⟨toolx, GoError.ErrNotFound⟩) ∧
    (LookPaths (mkWorld demoFS "/usr/bin:/bin".toList) toolx).1 =
      ([], some ⟨toolx, GoError.ErrNotFound⟩) :=
  ⟨by decide,
    lookup_no_match (mkWorld demoFS "/usr/bin:/bin".toList) toolx (by decide) (by decide)
      (by decide)⟩

/-- C9 (amended): for a name without a slash and a NON-EMPTY `PATH` value, replacing an
empty segment of `PATH` (whichever its position) by `.` leaves the whole output of `LookPath`
and of `LookPaths` unchanged; the candidate built for an empty segment is `./` followed by
the name; and with `PATH` set to `:/bin`, `./runme` executable and `/bin/runme` not,
`LookPath` returns `./runme` and `LookPaths` returns exactly `[./runme]`. -/
theorem empty_segment_is_dot (w : World) (file p : GoString) (i : Nat)
    (hfile : '/' ∉ file) (hp : p ≠ []) (hi : (strings_Split p ':')[i]? = some []) :
    LookPath (w.Setenv PATH (strings_Join ((strings_Split p ':').set i ['.']) ':')) file =
      LookPath (w.Setenv PATH p) file ∧
    LookPaths (w.Setenv PATH (strings_Join ((strings_Split p ':').set i ['.']) ':')) file =
      LookPaths (w.Setenv PATH p) file ∧
    candidate file [] = '.' :: '/' :: file ∧
    (∀ w' : World, w'.Getenv PATH = [':', '/', 'b', 'i', 'n'] →
      (findExecutable w' ("./".toList ++ runme)).1 = none →
      (findExecutable w' ("/bin/".toList ++ runme)).1 ≠ none →
      (LookPath w' runme).1 = ("./".toList ++ runme, none) ∧
      (LookPaths w' runme).1 = (["./".toList ++ runme], none)) := by
  refine ⟨?_, ?_, rfl, ?_⟩
  · rw [LookPath_eq, LookPath_eq, lookPaths_set_dot w file true p i hfile hp hi]
  · rw [LookPaths, LookPaths, lookPaths_set_dot w file false p i hfile hp hi]
  · intro w' hpath hdot hbin
    have hne : w'.Getenv PATH ≠ [] := by rw [hpath]; decide
    have hsplit : strings_Split (w'.Getenv PATH) ':' = [[], "/bin".toList] := by
      rw [hpath]; decide
    have h1 : isExecutable w' ("./".toList ++ runme) = true := (isExecutable_iff w' _).2 hdot
    have h2 : isExecutable w' ("/bin/".toList ++ runme) = false := by
      cases hx : isExecutable w' ("/bin/".toList ++ runme) with
      | false => rfl
      | true => exact absurd ((isExecutable_iff w' _).1 hx) hbin
    have hc1 : candidate runme [] = "./".toList ++ runme := by decide
    have hc2 : candidate runme "/bin".toList = "/bin/".toList ++ runme := by decide
    have hL : (([[], "/bin".toList] : List GoString).map (candidate runme)).filter
        (isExecutable w') = ["./".toList ++ runme] := by
      simp only [List.map_cons, List.map_nil, hc1, hc2, List.filter_cons, h1, h2]
      simp
    constructor
    · rw [LookPath_search w' runme (by decide) hne, hsplit, hL]
    · rw [LookPaths_search w' runme (by decide) hne, hsplit, hL]

theorem empty_segment_is_dot_witness :
    LookPath ((mkWorld demoFS []).Setenv PATH "/bin:.:/usr/bin".toList) ls =
      LookPath ((mkWorld demoFS []).Setenv PATH "/bin::/usr/bin".toList) ls ∧
    LookPaths ((mkWorld demoFS []).Setenv PATH "/bin:.:/usr/bin".toList) ls =
      LookPaths ((mkWorld demoFS []).Setenv PATH "/bin::/usr/bin".toList) ls ∧
    (LookPath (mkWorld demoFS ":/bin".toList) runme).1 = ("./runme".toList, none) ∧
    (LookPaths (mkWorld demoFS ":/bin".toList) runme).1 = (["./runme".toList], none) :=
  ⟨(empty_segment_is_dot (mkWorld demoFS []) ls "/bin::/usr/bin".toList 1
      (by decide) (by decide) (by decide)).1,
    (empty_segment_is_dot (mkWorld demoFS []) ls "/bin::/usr/bin".toList 1
      (by decide) (by decide) (by decide)).2.1,
    (empty_segment_is_dot (mkWorld demoFS []) ls "/bin::/usr/bin".toList 1
      (by decide) (by decide) (by decide)).2.2.2 (mkWorld demoFS ":/bin".toList) (by decide)
      (by decide) (by decide)⟩

/-- C9 as stated fails at the empty `PATH`: splitting it on `:` gives the single empty
segment, replacing that segment by `.` gives `PATH=.`, and with `./runme` executable the
lookups find nothing under the empty `PATH` but find `./runme` under `PATH=.`. -/
theorem empty_PATH_is_not_dot :
    '/' ∉ runme ∧
    (strings_Split [] ':')[0]? = some [] ∧
    strings_Join ((strings_Split [] ':').set 0 ['.']) ':' = ['.'] ∧
    (LookPath ((mkWorld demoFS []).Setenv PATH []) runme).1 =
      ([], some ⟨runme, GoError.ErrNotFound⟩) ∧
    (LookPath ((mkWorld demoFS []).Setenv PATH
      (strings_Join ((strings_Split [] ':').set 0 ['.']) ':')) runme).1 =
      ("./runme".toList, none) ∧
    (LookPaths ((mkWorld demoFS []).Setenv PATH []) runme).1 =
      ([], some ⟨runme, GoError.ErrNotFound⟩) ∧
    (LookPaths ((mkWorld demoFS []).Setenv PATH
      (strings_Join ((strings_Split [] ':').set 0 ['.']) ':')) runme).1 =
      (["./runme".toList], none) := by
  decide

/-- C10 (amended): for a name without a slash, a candidate that fails the executability
check (a directory, a file without execute bits, a stat error) does not end the search:
whenever a later search-list entry holds a candidate that passes, `LookPath` and `LookPaths`
both return a nil error, the later candidate is in the result of `LookPaths`, `LookPath`
returns the first element of that result, and the failing candidate is neither in the result
of `LookPaths` nor the result of `LookPath`; when nothing before the failing entry passes,
`LookPath` returns the candidate of an entry after it; and when the later entry is the first
one that passes, `LookPath` returns its candidate and the result of `LookPaths` starts with
it. -/
theorem failing_candidate_is_skipped (w : World) (file : GoString)
    (hfile : '/' ∉ file) (hpath : w.Getenv PATH ≠ []) (i j : Nat) (d d' : GoString)
    (hij : i < j)
    (hi : (strings_Split (w.Getenv PATH) ':')[i]? = some d)
    (hj : (strings_Split (w.Getenv PATH) ':')[j]? = some d')
    (hfail : (findExecutable w (candidate file d)).1 ≠ none)
    (hpass : (findExecutable w (candidate file d')).1 = none) :
    (LookPath w file).1.2 = none ∧ (LookPaths w file).1.2 = none ∧
    candidate file d' ∈ (LookPaths w file).1.1 ∧
    (LookPaths w file).1.1.head? = some (LookPath w file).1.1 ∧
    candidate file d ∉ (LookPaths w file).1.1 ∧
    (LookPath w file).1.1 ≠ candidate file d ∧
    ((∀ m x, m < i → (strings_Split (w.Getenv PATH) ':')[m]? = some x →
        (findExecutable w (candidate file x)).1 ≠ none) →
      ∃ m x, i < m ∧ m ≤ j ∧ (strings_Split (w.Getenv PATH) ':')[m]? = some x ∧
        (LookPath w file).1.1 = candidate file x) ∧
    ((∀ m x, m < j → (strings_Split (w.Getenv PATH) ':')[m]? = some x →
        (findExecutable w (candidate file x)).1 ≠ none) →
      (LookPath w file).1.1 = candidate file d' ∧
      (LookPaths w file).1.1.head? = some (candidate file d')) := by
  have hmem : candidate file d' ∈
      ((strings_Split (w.Getenv PATH) ':').map (candidate file)).filter (isExecutable w) := by
    rw [List.mem_filter]
    exact ⟨List.mem_map_of_mem _ (List.getElem?_mem hj), (isExecutable_iff w _).2 hpass⟩
  have hnot : ∀ q, q ∈ ((strings_Split (w.Getenv PATH) ':').map (candidate file)).filter
      (isExecutable w) → q ≠ candidate file d := by
    intro q hq hqd
    rw [List.mem_filter] at hq
    exact hfail ((isExecutable_iff w _).1 (hqd ▸ hq.2))
  have hat : ∀ (m : Nat) (x : GoString), (strings_Split (w.Getenv PATH) ':')[m]? = some x →
      (findExecutable w (candidate file x)).1 = none →
      (∀ n y, n < m → (strings_Split (w.Getenv PATH) ':')[n]? = some y →
        (findExecutable w (candidate file y)).1 ≠ none) →
      (LookPath w file).1 = (candidate file x, none) ∧
      ∃ rest, (LookPaths w file).1 = (candidate file x :: rest, none) := by
    intro m x hx hxp hmin
    obtain ⟨pre, post, hsplit, _, hpre⟩ := split_at_index _ m x hx
    have hpre' : ∀ y ∈ pre, (findExecutable w (candidate file y)).1 ≠ none := by
      intro y hy
      obtain ⟨n, hn, hny⟩ := hpre y hy
      exact hmin n y hn hny
    obtain ⟨g1, g2⟩ := lookup_first_pass w file hfile hpath pre x post hsplit hpre' hxp
    exact ⟨g1, _, g2⟩
  have h1 := LookPath_search w file hfile hpath
  have h2 := LookPaths_search w file hfile hpath
  cases hL : ((strings_Split (w.Getenv PATH) ':').map (candidate file)).filter
      (isExecutable w) with
  | nil => rw [hL] at hmem; cases hmem
  | cons q t =>
    rw [hL] at h1 h2 hmem hnot
    simp only at h1 h2
    refine ⟨by rw [h1], by rw [h2], by rw [h2]; exact hmem, by rw [h1, h2]; rfl,
      by rw [h2]; exact fun hc => hnot _ hc rfl,
      by rw [h1]; exact hnot q (List.mem_cons_self _ _), ?_, ?_⟩
    · intro hbefore
      obtain ⟨m, x, hmj, hx, hxp, hmin⟩ := exists_first_pass w file _ j d' hj hpass
      have him : i < m := by
        rcases Nat.lt_trichotomy m i with hlt | heq | hgt
        · exact absurd hxp (hbefore m x hlt hx)
        · subst heq
          rw [hi] at hx
          exact absurd hxp (Option.some.inj hx ▸ hfail)
        · exact hgt
      exact ⟨m, x, him, hmj, hx, by rw [(hat m x hx hxp hmin).1]⟩
    · intro hfirst
      obtain ⟨g1, rest, g2⟩ := hat j d' hj hpass hfirst
      exact ⟨by rw [g1], by rw [g2]; rfl⟩

theorem failing_candidate_is_skipped_witness :
    (findExecutable (mkWorld demoFS "/opt:/nowhere:/etc:/bin".toList) "/opt/ls".toList).1 =
      some GoError.ErrPermission ∧
    (LookPath (mkWorld demoFS "/opt:/nowhere:/etc:/bin".toList) ls).1.2 = none ∧
    (LookPaths (mkWorld demoFS "/opt:/nowhere:/etc:/bin".toList) ls).1.2 = none ∧
    "/bin/ls".toList ∈ (LookPaths (mkWorld demoFS "/opt:/nowhere:/etc:/bin".toList) ls).1.1 ∧
    "/opt/ls".toList ∉ (LookPaths (mkWorld demoFS "/opt:/nowhere:/etc:/bin".toList) ls).1.1 ∧
    (LookPath (mkWorld demoFS "/opt:/nowhere:/etc:/bin".toList) ls).1.1 ≠ "/opt/ls".toList ∧
    (LookPath (mkWorld demoFS "/opt:/nowhere:/etc:/bin".toList) ls).1.1 = "/bin/ls".toList ∧
    (LookPaths (mkWorld demoFS "/opt:/nowhere:/etc:/bin".toList) ls).1.1.head? =
      some "/bin/ls".toList := by
  have h := failing_candidate_is_skipped (mkWorld demoFS "/opt:/nowhere:/etc:/bin".toList) ls
    (by decide) (by decide) 0 3 "/opt".toList "/bin".toList (by decide) (by decide)
    (by decide) (by decide) (by decide)
  have hfirst : ∀ m x, m < 3 →
      (strings_Split ((mkWorld demoFS "/opt:/nowhere:/etc:/bin".toList).Getenv PATH) ':')[m]? =
        some x →
      (findExecutable (mkWorld demoFS "/opt:/nowhere:/etc:/bin".toList) (candidate ls x)).1 ≠
        none := by
    intro m x hm hx
    have hm' : m = 0 ∨ m = 1 ∨ m = 2 := by omega
    rcases hm' with rfl | rfl | rfl
    · have hx' : x = "/opt".toList := Option.some.inj (hx.symm.trans (by decide))
      subst hx'
      decide
    · have hx' : x = "/nowhere".toList := Option.some.inj (hx.symm.trans (by decide))
      subst hx'
      decide
    · have hx' : x = "/etc".toList := Option.some.inj (hx.symm.trans (by decide))
      subst hx'
      decide
  exact ⟨by decide, h.1, h.2.1, h.2.2.1, h.2.2.2.2.1, h.2.2.2.2.2.1,
    (h.2.2.2.2.2.2.2 hfirst).1, (h.2.2.2.2.2.2.2 hfirst).2⟩

/-- C10 as stated fails when an entry before the failing one passes: with `PATH` set to
`/bin:/opt:/usr/bin`, `/opt/ls` a directory and `ls` executable in `/bin` and in `/usr/bin`,
the entry `/usr/bin` comes after the failing entry `/opt` and its candidate passes, yet
`LookPath` returns `/bin/ls`, not `/usr/bin/ls`. -/
theorem later_candidate_not_returned :
    '/' ∉ ls ∧
    strings_Split ((mkWorld demoFS "/bin:/opt:/usr/bin".toList).Getenv PATH) ':' =
      ["/bin".toList, "/opt".toList, "/usr/bin".toList] ∧
    (findExecutable (mkWorld demoFS "/bin:/opt:/usr/bin".toList)
      (candidate ls "/opt".toList)).1 = some GoError.ErrPermission ∧
    (findExecutable (mkWorld demoFS "/bin:/opt:/usr/bin".toList)
      (candidate ls "/usr/bin".toList)).1 = none ∧
    candidate ls "/usr/bin".toList = "/usr/bin/ls".toList ∧
    (LookPath (mkWorld demoFS "/bin:/opt:/usr/bin".toList) ls).1 = ("/bin/ls".toList, none) ∧
    (LookPath (mkWorld demoFS "/bin:/opt:/usr/bin".toList) ls).1.1 ≠
      candidate ls "/usr/bin".toList := by
  decide

/-- C11: both entry points produce the same error on the same input: for every name,
environment and file system, the error returned by `LookPath` equals the error returned by
`LookPaths` (both nil, or both the same `Error` with the same name and cause). -/
theorem lookup_errors_agree (w : World) (file : GoString) :
    (LookPath w file).1.2 = (LookPaths w file).1.2 := by
  have ht := lookPaths_take w file
  have he := lookPaths_err_iff w file false
  rw [LookPath_eq, LookPaths, ht]
  cases hL : (lookPaths w file false).1.1 with
  | nil => rfl
  | cons q t =>
    rw [hL] at he
    exact (he.2 (List.cons_ne_nil q t)).symm

/-- C12: result and error exclude each other: `LookPaths` returns a nil error exactly when
its list is not empty, and `LookPath` returns either a non-empty path with a nil error or the
empty string with a non-nil error. -/
theorem result_error_exclusive (w : World) (file : GoString) :
    ((LookPaths w file).1.2 = none ↔ (LookPaths w file).1.1 ≠ []) ∧
    (((LookPath w file).1.1 ≠ [] ∧ (LookPath w file).1.2 = none) ∨
      ((LookPath w file).1.1 = [] ∧ (LookPath w file).1.2 ≠ none)) := by
  refine ⟨lookPaths_err_iff w file false, ?_⟩
  have he := lookPaths_err_iff w file true
  have hm := lookPaths_mem w file true
  rw [LookPath_eq]
  cases hL : (lookPaths w file true).1.1 with
  | nil =>
    rw [hL] at he
    right
    exact ⟨rfl, fun h => (he.1 h) rfl⟩
  | cons q t =>
    rw [hL] at hm
    left
    refine ⟨?_, rfl⟩
    intro hq
    have hs := (hm q (List.mem_cons_self _ _)).1
    simp only at hq
    rw [hq] at hs
    cases hs

/-- C13: first-match mode does not probe past the first hit: for a name without a slash and
a search list whose entry at index `k` (the `k+1`-th entry) is the first whose candidate
passes, the calls performed by `LookPath` are the `os.Getenv` followed by one `os.Stat` on
each candidate of the first `k+1` entries, in order, and nothing else; hence `LookPath`
gives the same output in any file system that agrees on those candidates. -/
theorem LookPath_stops_at_first_match (w : World) (file : GoString)
    (hfile : '/' ∉ file) (hpath : w.Getenv PATH ≠ []) (k : Nat) (d : GoString)
    (hk : (strings_Split (w.Getenv PATH) ':')[k]? = some d)
    (hpass : (findExecutable w (candidate file d)).1 = none)
    (hfirst : ∀ j d', j < k → (strings_Split (w.Getenv PATH) ':')[j]? = some d' →
      (findExecutable w (candidate file d')).1 ≠ none) :
    (LookPath w file).2 =
      Event.getenv PATH :: (((strings_Split (w.Getenv PATH) ':').take (k + 1)).map
        (fun x => Event.stat (candidate file x))) ∧
    ∀ w' : World, w'.Getenv PATH = w.Getenv PATH →
      (∀ x ∈ (strings_Split (w.Getenv PATH) ':').take (k + 1),
        w'.Stat (candidate file x) = w.Stat (candidate file x)) →
      LookPath w' file = LookPath w file := by
  obtain ⟨pre, post, hsplit, hlen, hmem⟩ := split_at_index _ k d hk
  have hpre : ∀ x ∈ pre, (findExecutable w (candidate file x)).1 ≠ none := by
    intro x hx
    obtain ⟨j, hj, hjx⟩ := hmem x hx
    exact hfirst j x hj hjx
  have htake : (strings_Split (w.Getenv PATH) ':').take (k + 1) = pre ++ [d] := by
    rw [hsplit, ← hlen]
    simp [List.take_append_eq_append_take]
  have hw : LookPath w file =
      ((candidate file d, none),
        Event.getenv PATH :: (pre ++ [d]).map (fun x => Event.stat (candidate file x))) := by
    rw [LookPath_eq, lookPaths_search w file true hfile hpath, hsplit,
      lookPaths_loop_first w file pre d post [] hpre hpass]
    rfl
  refine ⟨by rw [hw, htake], ?_⟩
  intro w' henv hagree
  rw [htake] at hagree
  have hpre' : ∀ x ∈ pre, (findExecutable w' (candidate file x)).1 ≠ none := by
    intro x hx
    rw [findExecutable_congr w w' _ (hagree x (List.mem_append_left _ hx))]
    exact hpre x hx
  have hpass' : (findExecutable w' (candidate file d)).1 = none := by
    rw [findExecutable_congr w w' _ (hagree d (by simp))]
    exact hpass
  rw [hw, LookPath_eq, lookPaths_search w' file true hfile (by rw [henv]; exact hpath), henv,
    hsplit, lookPaths_loop_first w' file pre d post [] hpre' hpass']
  rfl

theorem LookPath_stops_at_first_match_witness :
    (LookPath (mkWorld demoFS "/opt:/etc:/usr/bin:/bin".toList) ls).2 =
      [Event.getenv PATH, Event.stat "/opt/ls".toList, Event.stat "/etc/ls".toList,
        Event.stat "/usr/bin/ls".toList] ∧
    LookPath (mkWorld demoFS2 "/opt:/etc:/usr/bin:/bin".toList) ls =
      LookPath (mkWorld demoFS "/opt:/etc:/usr/bin:/bin".toList) ls := by
  have h := LookPath_stops_at_first_match (mkWorld demoFS "/opt:/etc:/usr/bin:/bin".toList) ls
    (by decide) (by decide) 2 "/usr/bin".toList (by decide) (by decide)
    (by
      intro j d' hj hd'
      have hj' : j = 0 ∨ j = 1 := by omega
      rcases hj' with rfl | rfl
      · have hx : d' = "/opt".toList := Option.some.inj (hd'.symm.trans (by decide))
        subst hx
        decide
      · have hx : d' = "/etc".toList := Option.some.inj (hd'.symm.trans (by decide))
        subst hx
        decide)
  refine ⟨h.1.trans (by decide), h.2 (mkWorld demoFS2 "/opt:/etc:/usr/bin:/bin".toList) rfl ?_⟩
  intro x hx
  have hx' : x ∈ ["/opt".toList, "/etc".toList, "/usr/bin".toList] := by
    have he : (strings_Split ((mkWorld demoFS "/opt:/etc:/usr/bin:/bin".toList).Getenv PATH)
        ':').take (2 + 1) = ["/opt".toList, "/etc".toList, "/usr/bin".toList] := by decide
    rw [he] at hx
    exact hx
  simp only [List.mem_cons, List.mem_singleton, List.not_mem_nil, or_false] at hx'
  rcases hx' with rfl | rfl | rfl <;> rfl

/-- C14 (amended): the executability check never succeeds for a directory, even when execute
permission bits are set; for any other kind of file, regular or not (device, named pipe,
socket), it succeeds exactly when one of the three execute bits is set. -/
theorem findExecutable_excludes_directories_only (w : World) (file : GoString) (fi : FileInfo)
    (hstat : w.Stat file = .ok fi) :
    (fi.Mode.IsDir = true → (findExecutable w file).1 = some GoError.ErrPermission) ∧
    (fi.Mode.IsDir = false →
      ((findExecutable w file).1 = none ↔ fi.Mode &&& 0o111 ≠ 0)) := by
  constructor
  · intro hd
    simp [findExecutable, hstat, hd]
  · intro hd
    by_cases hx : fi.Mode &&& 0o111 = 0
    · simp [findExecutable, hstat, hd, hx]
    · simp [findExecutable, hstat, hd, hx]

theorem findExecutable_excludes_directories_only_witness :
    (findExecutable (mkWorld specialFS []) "/run".toList).1 = some GoError.ErrPermission ∧
    ((findExecutable (mkWorld specialFS []) "/dev/null".toList).1 = none ↔
      (ModeDevice ||| 0o666) &&& 0o111 ≠ 0) :=
  ⟨(findExecutable_excludes_directories_only (mkWorld specialFS []) "/run".toList
      ⟨ModeDir ||| 0o755⟩ rfl).1 (by decide),
    (findExecutable_excludes_directories_only (mkWorld specialFS []) "/dev/null".toList
      ⟨ModeDevice ||| 0o666⟩ rfl).2 (by decide)⟩

/-- C14 as stated fails on a socket (or a named pipe) that carries execute bits: its mode is
neither regular nor a directory, and `findExecutable` returns nil for it. -/
theorem findExecutable_accepts_socket :
    FileMode.IsRegular (ModeSocket ||| 0o755) = false ∧
    FileMode.IsDir (ModeSocket ||| 0o755) = false ∧
    (mkWorld specialFS []).Stat "/run/app.sock".toList = .ok ⟨ModeSocket ||| 0o755⟩ ∧
    (findExecutable (mkWorld specialFS []) "/run/app.sock".toList).1 = none ∧
    FileMode.IsRegular (ModeNamedPipe ||| 0o755) = false ∧
    (findExecutable (mkWorld specialFS []) "/run/fifo".toList).1 = none :=
  ⟨by decide, by decide, rfl, by decide, by decide, by decide⟩

/-- C15: the single-result lookup is the one-element beginning of the all-results lookup:
`lookPaths` in first-match mode returns the first at most one element of what it returns in
all-matches mode, with the same error; so `LookPath` has a nil error exactly when the list
of `LookPaths` is not empty, and then returns its first element. -/
theorem first_match_is_take_one (w : World) (file : GoString) :
    (lookPaths w file true).1 =
      ((lookPaths w file false).1.1.take 1, (lookPaths w file false).1.2) ∧
    ((LookPath w file).1.2 = none ↔ (LookPaths w file).1.1 ≠ []) ∧
    (∀ p rest, (LookPaths w file).1.1 = p :: rest → (LookPath w file).1 = (p, none)) := by
  have ht := lookPaths_take w file
  have he := lookPaths_err_iff w file false
  refine ⟨ht, ?_, ?_⟩
  · rw [LookPath_eq, LookPaths, ht]
    cases hL : (lookPaths w file false).1.1 with
    | nil =>
      rw [hL] at he
      simp only [List.take_nil, ne_eq, not_true_eq_false, iff_false]
      exact fun h => (he.1 h) rfl
    | cons q t => simp
  · intro p rest hl
    rw [LookPaths] at hl
    rw [LookPath_eq, ht, hl]
    rfl

/-- C16: `LookPath` is idempotent on success: when `LookPath` on a name returns the path `p`
with a nil error, `p` contains a slash and passes `findExecutable`, and `LookPath` on `p` in
the same file system, under any environment, returns `p` with a nil error; likewise every
element `q` of the list returned by `LookPaths` gives back exactly `[q]` with a nil error. -/
theorem LookPath_idempotent (w : World) (file p : GoString)
    (hok : (LookPath w file).1 = (p, none)) :
    '/' ∈ p ∧ (findExecutable w p).1 = none ∧
    (∀ w' : World, w'.Stat = w.Stat → (LookPath w' p).1 = (p, none)) ∧
    (∀ q ∈ (LookPaths w file).1.1, ∀ w' : World, w'.Stat = w.Stat →
      (LookPaths w' q).1 = ([q], none)) := by
  have hdirect : ∀ q, '/' ∈ q → (findExecutable w q).1 = none →
      ∀ w' : World, w'.Stat = w.Stat →
        (LookPath w' q).1 = (q, none) ∧ (LookPaths w' q).1 = ([q], none) := by
    intro q hq hfe w' hfs
    have hfe' : (findExecutable w' q).1 = none := by
      rw [findExecutable_congr w w' q (by rw [hfs])]
      exact hfe
    rw [LookPath_direct w' q hq, LookPaths, lookPaths_direct w' q false hq, hfe']
    exact ⟨rfl, rfl⟩
  have hp : '/' ∈ p ∧ (findExecutable w p).1 = none := by
    have he := lookPaths_err_iff w file true
    rw [LookPath_eq] at hok
    cases hL : (lookPaths w file true).1.1 with
    | nil =>
      rw [hL] at hok he
      simp only [Prod.mk.injEq] at hok
      exact absurd rfl (he.1 hok.2)
    | cons q t =>
      rw [hL] at hok
      simp only [Prod.mk.injEq, and_true] at hok
      subst hok
      exact lookPaths_mem w file true q (by rw [hL]; exact List.mem_cons_self _ _)
  refine ⟨hp.1, hp.2, fun w' hfs => (hdirect p hp.1 hp.2 w' hfs).1, ?_⟩
  intro q hq w' hfs
  have hm := lookPaths_mem w file false q hq
  exact (hdirect q hm.1 hm.2 w' hfs).2

theorem LookPath_idempotent_witness :
    (LookPath (mkWorld demoFS ":/bin".toList) runme).1 = ("./runme".toList, none) ∧
    '/' ∈ "./runme".toList ∧
    (findExecutable (mkWorld demoFS ":/bin".toList) "./runme".toList).1 = none ∧
    (LookPath (mkWorld demoFS []) "./runme".toList).1 = ("./runme".toList, none) ∧
    (LookPaths (mkWorld demoFS "garbage".toList) "./runme".toList).1 =
      (["./runme".toList], none) :=
  ⟨by decide,
    (LookPath_idempotent (mkWorld demoFS ":/bin".toList) runme "./runme".toList (by decide)).1,
    (LookPath_idempotent (mkWorld demoFS ":/bin".toList) runme "./runme".toList
      (by decide)).2.1,
    (LookPath_idempotent (mkWorld demoFS ":/bin".toList) runme "./runme".toList
      (by decide)).2.2.1 (mkWorld demoFS []) rfl,
    (LookPath_idempotent (mkWorld demoFS ":/bin".toList) runme "./runme".toList
      (by decide)).2.2.2 "./runme".toList (by decide) (mkWorld demoFS "garbage".toList) rfl⟩

end Exec
